import Mathlib

/-!
# Verification of the spotifygraph graph builder and Connections game

Shallow embedding of the core logic of the repository:

* `src/utils/graphUtils.js` — `artistsToGraphData`: builds a degree-capped
  graph from an artist list via a greedy two-phase (connectivity +
  densification) edge selection over candidates sorted by shared-genre count.
* `src/config/connectionsConfig.js` (the `useConnectionsGame` hook) —
  the game session state machine: `beginPlaying`, `submitGuess`, `goBackTo`,
  `getNodeState`, `revealHintNode`.

Modelling notes:
* JS artist/node ids and genre tags are strings; they are embedded as `String`.
* Presentational node fields (`val` from `calculateNodeSize`, `color`,
  `popularity`, `followers`, `image`, urls) are omitted: `calculateNodeSize`
  is floating-point and none of these fields feed back into edge selection,
  node membership, or game logic.  Likewise `calculateGenreClusters` /
  `assignNodeColors` only mutate colors and are omitted.
* JS `Set` objects (`revealedArtists`, `addedLinks`, `connectedNodeIds`) are
  embedded as lists with insert-if-absent / membership, which matches the
  observable (membership) behaviour of the source.
* The source's union-find (`find` with path compression, `union` via
  `parent[px] = py`) is embedded by maintaining the representative map
  directly: `unionRoot` remaps everything whose root is `find x` to `find y`,
  which is exactly the effect of `parent[px] = py` on subsequent `find`
  results.
* JS `Array.prototype.sort` is stable; the comparator `b.value - a.value`
  therefore yields the unique stable descending-by-value ordering, embedded
  here as a stable insertion sort.
-/

/-- Input artist record (`id`, `name`, `genres`), from the fields of the
Spotify/Last.fm artist objects that `artistsToGraphData` actually consumes
for graph structure. `genres` models `artist.genres || []`. -/
structure Artist where
  id : String
  name : String
  genres : List String
deriving DecidableEq, Repr

/-- Graph node as produced by `artistsToGraphData` (structural fields only;
presentational fields omitted, see module docstring). -/
structure Node where
  id : String
  name : String
  genres : List String
deriving DecidableEq, Repr

/-- Edge record pushed onto `allPotentialLinks`:
`{ source, target, sharedGenres, value: sharedGenres.length }`. -/
structure Link where
  source : String
  target : String
  sharedGenres : List String
deriving DecidableEq, Repr

/-- Edge weight `value: sharedGenres.length` = number of shared genres. -/
def Link.value (l : Link) : Nat := l.sharedGenres.length

/-- Source `getSharedGenres(genres1, genres2)`:
`genres1.filter(g => genres2.includes(g))`. -/
def getSharedGenres (genres1 genres2 : List String) : List String :=
  genres1.filter (fun g => g ∈ genres2)

/-- The node created for one artist (structural fields of the object literal
in `artistsToGraphData`). -/
def artistToNode (a : Artist) : Node :=
  { id := a.id, name := a.name, genres := a.genres }

/-- All ordered position pairs `(i, j)` with `i < j` of the two nested loops
`for i ... for j = i+1 ...` in `artistsToGraphData`. -/
def allPairs {α : Type} : List α → List (α × α)
  | [] => []
  | x :: xs => xs.map (fun y => (x, y)) ++ allPairs xs

/-- The `allPotentialLinks` array: one candidate link per pair of nodes with
at least one shared genre. -/
def allPotentialLinks (ns : List Node) : List Link :=
  (allPairs ns).filterMap (fun p =>
    let sharedGenres := getSharedGenres p.1.genres p.2.genres
    if sharedGenres.length > 0 then
      some { source := p.1.id, target := p.2.id, sharedGenres := sharedGenres }
    else none)

/-- Stable insertion of a link into a descending-by-`value` list (the new
element goes before the first element whose value is ≤ its own, hence after
all earlier elements of equal value: stability). -/
def insertDesc (x : Link) : List Link → List Link
  | [] => [x]
  | y :: ys => if y.value ≤ x.value then x :: y :: ys else y :: insertDesc x ys

/-- Source `allPotentialLinks.sort((a, b) => b.value - a.value)` — the stable
descending sort by `value` (JS `sort` is stable). -/
def sortByValueDesc (l : List Link) : List Link :=
  l.foldr insertDesc []

/-- Union-find state plus accepted links, as threaded through the two edge
selection phases of `artistsToGraphData`. -/
structure BuildState where
  root : String → String
  count : String → Nat
  links : List Link
  added : List String

/-- The key `` `${link.source}-${link.target}` `` used for the `addedLinks`
set. -/
def linkKey (l : Link) : String := l.source ++ "-" ++ l.target

/-- Effect of `union(x, y)` (i.e. `parent[find x] = find y`) on the
representative map. -/
def unionRoot (r : String → String) (x y : String) : String → String :=
  fun z => if r z = r x then r y else r z

/-- The two sequential writes
`connectionCount[source] = sourceCount + 1; connectionCount[target] = targetCount + 1`
(both counts are read before either write). -/
def updateCounts (c : String → Nat) (src tgt : String) : String → Nat :=
  fun z => if z = tgt then c tgt + 1 else if z = src then c src + 1 else c z

/-- One iteration of PHASE 1 (bridge connections merging separate
components, capped at `D = MAX_CONNECTIONS_PER_NODE` per endpoint). -/
def phase1Step (D : Nat) (s : BuildState) (l : Link) : BuildState :=
  if s.root l.source ≠ s.root l.target then
    if s.count l.source < D ∧ s.count l.target < D then
      { root := unionRoot s.root l.source l.target
        count := updateCounts s.count l.source l.target
        links := s.links ++ [l]
        added := s.added ++ [linkKey l] }
    else s
  else s

/-- One iteration of PHASE 2 (fill remaining capacity with the strongest
not-yet-added candidates; `addedLinks` skips phase-1 edges). -/
def phase2Step (D : Nat) (s : BuildState) (l : Link) : BuildState :=
  if linkKey l ∈ s.added then s
  else if s.count l.source < D ∧ s.count l.target < D then
    { s with
      count := updateCounts s.count l.source l.target
      links := s.links ++ [l] }
  else s

/-- Initial state: `parent` empty (so `find x = x`), `connectionCount` empty
(so every count reads as `0` via `|| 0`), no links, no added keys. -/
def initState : BuildState :=
  { root := id, count := fun _ => 0, links := [], added := [] }

/-- The accepted edge list of `artistsToGraphData`: sort candidates by
strength, run phase 1 then phase 2. -/
def buildGraphLinks (D : Nat) (ns : List Node) : List Link :=
  let cands := sortByValueDesc (allPotentialLinks ns)
  let s1 := cands.foldl (phase1Step D) initState
  let s2 := cands.foldl (phase2Step D) s1
  s2.links

/-- The `connectedNodeIds` set: every id occurring as an endpoint of an
accepted link. -/
def connectedNodeIds (links : List Link) : List String :=
  links.foldl (fun acc l => acc ++ [l.source, l.target]) []

/-- The `{ nodes, links }` result of `artistsToGraphData` (the
presentational `genreClusters` component is omitted, see module
docstring). -/
structure GraphData where
  nodes : List Node
  links : List Link
deriving DecidableEq, Repr

/-- Source `artistsToGraphData`, generalized over the degree cap `D`
(`MAX_CONNECTIONS_PER_NODE` in the source, hardcoded to `5`).  The input is
an `Option` so that the JS `null`/`undefined` guard `!artists` is
representable. -/
def artistsToGraphDataD (D : Nat) (input : Option (List Artist)) : GraphData :=
  match input with
  | none => { nodes := [], links := [] }
  | some artists =>
    if artists.length = 0 then { nodes := [], links := [] }
    else
      let allNodes := artists.map artistToNode
      let links := buildGraphLinks D allNodes
      let ids := connectedNodeIds links
      { nodes := allNodes.filter (fun n => n.id ∈ ids), links := links }

/-- Source `artistsToGraphData` with the source's degree cap
`MAX_CONNECTIONS_PER_NODE = 5`. -/
def artistsToGraphData : Option (List Artist) → GraphData :=
  artistsToGraphDataD 5

/-- Number of accepted links incident to the id `x` (the degree of the node
with that id). -/
def nodeDegree (links : List Link) (x : String) : Nat :=
  links.countP (fun l => x == l.source || x == l.target)

/-- Two ids are joined by one of the given links (in either orientation). -/
def linkAdj (links : List Link) (x y : String) : Prop :=
  ∃ l ∈ links, (l.source = x ∧ l.target = y) ∨ (l.source = y ∧ l.target = x)

/-- Two ids are connected by a path of links. -/
def linksConnected (links : List Link) : String → String → Prop :=
  Relation.ReflTransGen (linkAdj links)

/-- The shared-genre similarity relation on an artist list: the candidate
edges of the builder, before any selection. -/
def simConnected (artists : List Artist) (x y : String) : Prop :=
  linksConnected (allPotentialLinks (artists.map artistToNode)) x y

-- Example-scenario artists for C5 (degree cap D = 1):
-- A–B share 3 genres, A–C share 2, B–C share 2.

/-- Scenario artist A (C5). -/
def c5A : Artist := { id := "A", name := "A", genres := ["g1", "g2", "g3", "g4", "g5"] }

/-- Scenario artist B (C5). -/
def c5B : Artist := { id := "B", name := "B", genres := ["g1", "g2", "g3", "g6", "g7"] }

/-- Scenario artist C (C5). -/
def c5C : Artist := { id := "C", name := "C", genres := ["g4", "g5", "g6", "g7"] }

/-- C5: with degree cap `D = 1` and candidates `(A-B,3), (A-C,2), (B-C,2)`
processed strongest-first, only `A-B` is accepted and `C` is dropped from
the node set. -/
theorem c5_cap_one_scenario :
    (artistsToGraphDataD 1 (some [c5A, c5B, c5C])).nodes.map Node.id = ["A", "B"] ∧
    (artistsToGraphDataD 1 (some [c5A, c5B, c5C])).links =
      [{ source := "A", target := "B", sharedGenres := ["g1", "g2", "g3"] }] ∧
    sortByValueDesc (allPotentialLinks ([c5A, c5B, c5C].map artistToNode)) =
      [{ source := "A", target := "B", sharedGenres := ["g1", "g2", "g3"] },
       { source := "A", target := "C", sharedGenres := ["g4", "g5"] },
       { source := "B", target := "C", sharedGenres := ["g6", "g7"] }] := by
  refine ⟨?_, ?_, ?_⟩ <;> decide

/-- C9: a `null`/`undefined`, empty, or single-artist input yields an empty
graph (empty node set and empty edge set) rather than an error. -/
theorem c9_empty_input (input : Option (List Artist))
    (h : ∀ l, input = some l → l.length < 2) :
    (artistsToGraphData input).nodes = [] ∧ (artistsToGraphData input).links = [] := by
  match input with
  | none => exact ⟨rfl, rfl⟩
  | some [] => exact ⟨rfl, rfl⟩
  | some [a] =>
    simp [artistsToGraphData, artistsToGraphDataD, buildGraphLinks,
      allPotentialLinks, allPairs, sortByValueDesc, connectedNodeIds, initState]
  | some (a :: b :: t) =>
    have := h (a :: b :: t) rfl
    simp [List.length_cons] at this
    exact absurd this (by omega)

/-- Witness for C9 at the concrete input `some []`. -/
theorem c9_empty_input_witness :
    (artistsToGraphData (some [])).nodes = [] ∧ (artistsToGraphData (some [])).links = [] :=
  c9_empty_input (some []) (by intro l hl; cases hl; decide)

-- ## Degree bounds (C3, C4)

/-- Membership in the `connectedNodeIds` accumulator: an id is collected iff
it is already in the accumulator or is an endpoint of some link. -/
lemma mem_connectedNodeIds_aux (ls : List Link) :
    ∀ (acc : List String) (x : String),
      x ∈ ls.foldl (fun acc l => acc ++ [l.source, l.target]) acc ↔
        x ∈ acc ∨ ∃ l ∈ ls, x = l.source ∨ x = l.target := by
  induction ls with
  | nil => simp
  | cons l ls ih =>
    intro acc x
    rw [List.foldl_cons, ih]
    constructor
    · rintro (hacc | ⟨l', hl', h⟩)
      · rcases List.mem_append.mp hacc with h | h
        · exact Or.inl h
        · rcases List.mem_cons.mp h with h | h
          · exact Or.inr ⟨l, List.mem_cons_self l ls, Or.inl h⟩
          · rcases List.mem_cons.mp h with h | h
            · exact Or.inr ⟨l, List.mem_cons_self l ls, Or.inr h⟩
            · exact absurd h (List.not_mem_nil x)
      · exact Or.inr ⟨l', List.mem_cons_of_mem l hl', h⟩
    · rintro (hacc | ⟨l', hl', h⟩)
      · exact Or.inl (List.mem_append.mpr (Or.inl hacc))
      · rcases List.mem_cons.mp hl' with rfl | hl'
        · refine Or.inl (List.mem_append.mpr (Or.inr ?_))
          rcases h with h | h
          · exact List.mem_cons.mpr (Or.inl h)
          · exact List.mem_cons.mpr (Or.inr (List.mem_cons.mpr (Or.inl h)))
        · exact Or.inr ⟨l', hl', h⟩

/-- The `connectedNodeIds` set collects exactly the endpoints of the links. -/
lemma mem_connectedNodeIds (ls : List Link) (x : String) :
    x ∈ connectedNodeIds ls ↔ ∃ l ∈ ls, x = l.source ∨ x = l.target := by
  rw [connectedNodeIds, mem_connectedNodeIds_aux]
  simp

/-- C4: every node of the output graph has degree at least 1 (an artist with
zero accepted edges is dropped by the `connectedNodeIds` filter, never
rendered as an orphan). -/
theorem c4_degree_ge_one (input : Option (List Artist)) :
    ∀ n ∈ (artistsToGraphData input).nodes,
      1 ≤ nodeDegree (artistsToGraphData input).links n.id := by
  intro n hn
  match input with
  | none => simp [artistsToGraphData, artistsToGraphDataD] at hn
  | some artists =>
    by_cases hlen : artists.length = 0
    · simp [artistsToGraphData, artistsToGraphDataD, hlen] at hn
    · simp only [artistsToGraphData, artistsToGraphDataD, if_neg hlen] at hn ⊢
      rw [List.mem_filter] at hn
      have hmem : n.id ∈ connectedNodeIds (buildGraphLinks 5 (artists.map artistToNode)) := by
        simpa using hn.2
      rw [mem_connectedNodeIds] at hmem
      obtain ⟨l, hl, hor⟩ := hmem
      have : 0 < nodeDegree (buildGraphLinks 5 (artists.map artistToNode)) n.id := by
        rw [nodeDegree]
        refine List.countP_pos_iff.mpr ⟨l, hl, ?_⟩
        rcases hor with h | h <;> simp [h]
      exact this

/-- Witness for C4 on a concrete two-artist graph. -/
theorem c4_degree_ge_one_witness :
    1 ≤ nodeDegree (artistsToGraphData (some [c5A, c5B])).links
        (artistToNode c5A).id :=
  c4_degree_ge_one (some [c5A, c5B]) (artistToNode c5A) (by decide)

/-- Incidence counting on one appended link. -/
lemma nodeDegree_append (ls : List Link) (l : Link) (x : String) :
    nodeDegree (ls ++ [l]) x =
      nodeDegree ls x + (if x = l.source ∨ x = l.target then 1 else 0) := by
  rw [nodeDegree, nodeDegree, List.countP_append]
  by_cases h1 : x = l.source <;> by_cases h2 : x = l.target <;>
    simp [List.countP_cons, h1, h2]

/-- Phase 1 preserves `count = degree` and `count ≤ D`:
links are only accepted when both endpoints are strictly below the cap. -/
lemma phase1_deg (D : Nat) :
    ∀ (rest : List Link) (s : BuildState),
      (∀ z, s.count z = nodeDegree s.links z) →
      (∀ z, s.count z ≤ D) →
      (∀ z, (rest.foldl (phase1Step D) s).count z
          = nodeDegree (rest.foldl (phase1Step D) s).links z) ∧
      (∀ z, (rest.foldl (phase1Step D) s).count z ≤ D) := by
  intro rest
  induction rest with
  | nil => intro s h1 h2; exact ⟨h1, h2⟩
  | cons l rest ih =>
    intro s h1 h2
    rw [List.foldl_cons]
    by_cases hr : s.root l.source = s.root l.target
    · rw [phase1Step, if_neg (by simpa using hr)]
      exact ih s h1 h2
    · have hne : l.source ≠ l.target := fun he => hr (by rw [he])
      by_cases hc : s.count l.source < D ∧ s.count l.target < D
      · rw [phase1Step, if_pos hr, if_pos hc]
        apply ih
        · intro z
          simp only [updateCounts, nodeDegree_append]
          by_cases hz2 : z = l.target
          · simp [hz2, h1, hne.symm]
          · by_cases hz1 : z = l.source
            · simp [hz1, hz2, h1, hne]
            · simp [hz1, hz2, h1]
        · intro z
          simp only [updateCounts]
          by_cases hz2 : z = l.target
          · simpa [hz2] using hc.2
          · by_cases hz1 : z = l.source
            · simpa [hz1, hz2, hne] using hc.1
            · simpa [hz1, hz2] using h2 z
      · rw [phase1Step, if_pos hr, if_neg hc]
        exact ih s h1 h2

/-- Phase 2 preserves `count = degree` and `count ≤ D`, provided no
candidate is a self-loop. -/
lemma phase2_deg (D : Nat) :
    ∀ (rest : List Link) (s : BuildState),
      (∀ l ∈ rest, l.source ≠ l.target) →
      (∀ z, s.count z = nodeDegree s.links z) →
      (∀ z, s.count z ≤ D) →
      (∀ z, (rest.foldl (phase2Step D) s).count z
          = nodeDegree (rest.foldl (phase2Step D) s).links z) ∧
      (∀ z, (rest.foldl (phase2Step D) s).count z ≤ D) := by
  intro rest
  induction rest with
  | nil => intro s _ h1 h2; exact ⟨h1, h2⟩
  | cons l rest ih =>
    intro s hst h1 h2
    have hne : l.source ≠ l.target := hst l (List.mem_cons_self l rest)
    have hst' : ∀ l' ∈ rest, l'.source ≠ l'.target :=
      fun l' hl' => hst l' (List.mem_cons_of_mem l hl')
    rw [List.foldl_cons]
    by_cases hk : linkKey l ∈ s.added
    · rw [phase2Step, if_pos hk]
      exact ih s hst' h1 h2
    · by_cases hc : s.count l.source < D ∧ s.count l.target < D
      · rw [phase2Step, if_neg hk, if_pos hc]
        apply ih _ hst'
        · intro z
          simp only [updateCounts, nodeDegree_append]
          by_cases hz2 : z = l.target
          · simp [hz2, h1, hne.symm]
          · by_cases hz1 : z = l.source
            · simp [hz1, hz2, h1, hne]
            · simp [hz1, hz2, h1]
        · intro z
          simp only [updateCounts]
          by_cases hz2 : z = l.target
          · simpa [hz2] using hc.2
          · by_cases hz1 : z = l.source
            · simpa [hz1, hz2, hne] using hc.1
            · simpa [hz1, hz2] using h2 z
      · rw [phase2Step, if_neg hk, if_neg hc]
        exact ih s hst' h1 h2

/-- Elements of `allPairs` are drawn from the list. -/
lemma allPairs_mem {α : Type} :
    ∀ (ns : List α) (p : α × α), p ∈ allPairs ns → p.1 ∈ ns ∧ p.2 ∈ ns := by
  intro ns
  induction ns with
  | nil => simp [allPairs]
  | cons x xs ih =>
    intro p hp
    rcases List.mem_append.mp hp with h | h
    · obtain ⟨y, hy, rfl⟩ := List.mem_map.mp h
      exact ⟨List.mem_cons_self x xs, List.mem_cons_of_mem x hy⟩
    · obtain ⟨h1, h2⟩ := ih p h
      exact ⟨List.mem_cons_of_mem x h1, List.mem_cons_of_mem x h2⟩

/-- With duplicate-free node ids, the two components of every enumerated
pair have distinct ids (the inner loop starts at `j = i + 1`). -/
lemma allPairs_id_ne (ns : List Node) (h : (ns.map Node.id).Nodup) :
    ∀ p ∈ allPairs ns, p.1.id ≠ p.2.id := by
  induction ns with
  | nil => simp [allPairs]
  | cons x xs ih =>
    intro p hp
    rw [List.map_cons, List.nodup_cons] at h
    rcases List.mem_append.mp hp with hmem | hmem
    · obtain ⟨y, hy, rfl⟩ := List.mem_map.mp hmem
      intro he
      exact h.1 (he ▸ List.mem_map_of_mem Node.id hy)
    · exact ih h.2 p hmem

/-- With duplicate-free node ids no candidate link is a self-loop. -/
lemma allPotentialLinks_ne (ns : List Node) (h : (ns.map Node.id).Nodup) :
    ∀ l ∈ allPotentialLinks ns, l.source ≠ l.target := by
  intro l hl
  rw [allPotentialLinks, List.mem_filterMap] at hl
  obtain ⟨p, hp, hsome⟩ := hl
  simp only at hsome
  split at hsome
  · cases hsome
    exact allPairs_id_ne ns h p hp
  · cases hsome

/-- Inserting with `insertDesc` permutes. -/
lemma insertDesc_perm (x : Link) (l : List Link) :
    List.Perm (insertDesc x l) (x :: l) := by
  induction l with
  | nil => exact List.Perm.refl _
  | cons y ys ih =>
    rw [insertDesc]
    split
    · exact List.Perm.refl _
    · exact (List.Perm.cons y ih).trans (List.Perm.swap x y ys)

/-- The stable sort is a permutation of its input. -/
lemma sortByValueDesc_perm (l : List Link) :
    List.Perm (sortByValueDesc l) l := by
  induction l with
  | nil => exact List.Perm.refl _
  | cons x xs ih =>
    rw [sortByValueDesc, List.foldr_cons]
    exact (insertDesc_perm x _).trans (List.Perm.cons x ih)

/-- The ids of the created nodes are the artist ids. -/
lemma nodeIds_eq (artists : List Artist) :
    (artists.map artistToNode).map Node.id = artists.map Artist.id := by
  rw [List.map_map]; rfl

/-- C3 core: for every cap `D` and every input with duplicate-free artist
ids (the spec's input contract), every id has at most `D` accepted links. -/
lemma buildGraphLinks_degree_le (D : Nat) (ns : List Node)
    (h : (ns.map Node.id).Nodup) :
    ∀ z, nodeDegree (buildGraphLinks D ns) z ≤ D := by
  intro z
  have hst : ∀ l ∈ sortByValueDesc (allPotentialLinks ns), l.source ≠ l.target :=
    fun l hl =>
      allPotentialLinks_ne ns h l ((sortByValueDesc_perm _).mem_iff.mp hl)
  have h0 : ∀ z, initState.count z = nodeDegree initState.links z := by
    intro z; simp [initState, nodeDegree]
  have h0' : ∀ z, initState.count z ≤ D := by
    intro z; simp [initState]
  obtain ⟨p1a, p1b⟩ :=
    phase1_deg D (sortByValueDesc (allPotentialLinks ns)) initState h0 h0'
  obtain ⟨p2a, p2b⟩ :=
    phase2_deg D (sortByValueDesc (allPotentialLinks ns)) _ hst p1a p1b
  rw [buildGraphLinks]
  rw [← p2a z]
  exact p2b z

/-- C3: for every cap `D` and every artist list with duplicate-free ids
(the spec declares ids "stable, unique"), no node of the output graph
exceeds degree `D`; `artistsToGraphData` is the instance `D = 5`
(`MAX_CONNECTIONS_PER_NODE`). -/
theorem c3_degree_le (D : Nat) (artists : List Artist)
    (hnd : (artists.map Artist.id).Nodup) :
    ∀ n ∈ (artistsToGraphDataD D (some artists)).nodes,
      nodeDegree (artistsToGraphDataD D (some artists)).links n.id ≤ D := by
  intro n _
  have h : ((artists.map artistToNode).map Node.id).Nodup := by
    rw [nodeIds_eq]; exact hnd
  by_cases hlen : artists.length = 0
  · simp [artistsToGraphDataD, hlen, nodeDegree]
  · simp only [artistsToGraphDataD, if_neg hlen]
    exact buildGraphLinks_degree_le D (artists.map artistToNode) h n.id

/-- Witness for C3 at `D = 5` (the source's `MAX_CONNECTIONS_PER_NODE`)
on a concrete three-artist input. -/
theorem c3_degree_le_witness :
    ([c5A, c5B, c5C].map Artist.id).Nodup ∧
    ∀ n ∈ (artistsToGraphDataD 5 (some [c5A, c5B, c5C])).nodes,
      nodeDegree (artistsToGraphDataD 5 (some [c5A, c5B, c5C])).links n.id ≤ 5 :=
  ⟨by decide, c3_degree_le 5 [c5A, c5B, c5C] (by decide)⟩

-- ## Connectivity (C1)

/-- Link-path connectivity only grows when links are appended. -/
lemma linksConnected_mono (ls more : List Link) {x y : String} :
    linksConnected ls x y → linksConnected (ls ++ more) x y := by
  apply Relation.ReflTransGen.mono
  intro a b hab
  obtain ⟨l, hl, h⟩ := hab
  exact ⟨l, List.mem_append.mpr (Or.inl hl), h⟩

/-- Permuting the link list does not change adjacency. -/
lemma linkAdj_perm {ls ls' : List Link} (h : List.Perm ls ls') {x y : String} :
    linkAdj ls x y → linkAdj ls' x y := by
  intro ⟨l, hl, hor⟩
  exact ⟨l, h.mem_iff.mp hl, hor⟩

/-- Permuting the link list does not change connectivity. -/
lemma linksConnected_perm {ls ls' : List Link} (h : List.Perm ls ls')
    {x y : String} : linksConnected ls x y → linksConnected ls' x y :=
  Relation.ReflTransGen.mono (fun _ _ => linkAdj_perm h)

/-- The update `unionRoot` maps equal roots to equal roots. -/
lemma unionRoot_eq_of_eq (r : String → String) (x y a b : String)
    (h : r a = r b) : unionRoot r x y a = unionRoot r x y b := by
  simp only [unionRoot, h]

/-- Phase 1 invariant induction.  Processing the remaining candidates
“rest” after “processed” preserves: the accepted links are a sublist of the
processed candidates; `count` equals the accepted degree; equal union-find
roots imply link-connectivity; and (given that every candidate endpoint has
candidate-degree ≤ D, so the cap can never block a bridge) every processed
candidate has its endpoints in one component. -/
lemma phase1_go (D : Nat) :
    ∀ (rest processed : List Link) (s : BuildState),
      (∀ l ∈ processed ++ rest,
        nodeDegree (processed ++ rest) l.source ≤ D ∧
        nodeDegree (processed ++ rest) l.target ≤ D) →
      s.links.Sublist processed →
      (∀ z, s.count z = nodeDegree s.links z) →
      (∀ x y, s.root x = s.root y → linksConnected s.links x y) →
      (∀ l ∈ processed, s.root l.source = s.root l.target) →
      ((rest.foldl (phase1Step D) s).links.Sublist (processed ++ rest) ∧
       (∀ x y, (rest.foldl (phase1Step D) s).root x
            = (rest.foldl (phase1Step D) s).root y →
          linksConnected (rest.foldl (phase1Step D) s).links x y) ∧
       (∀ l ∈ processed ++ rest,
          (rest.foldl (phase1Step D) s).root l.source
            = (rest.foldl (phase1Step D) s).root l.target)) := by
  intro rest
  induction rest with
  | nil =>
    intro processed s hdeg hsub hcnt hB hA
    rw [List.append_nil] at hdeg ⊢
    exact ⟨hsub, hB, hA⟩
  | cons l rest ih =>
    intro processed s hdeg hsub hcnt hB hA
    have hassoc : (processed ++ [l]) ++ rest = processed ++ l :: rest := by
      rw [List.append_assoc, List.singleton_append]
    rw [List.foldl_cons]
    by_cases hr : s.root l.source = s.root l.target
    · rw [phase1Step, if_neg (by simpa using hr)]
      have := ih (processed ++ [l]) s (by rw [hassoc]; exact hdeg)
        (hsub.trans (List.sublist_append_left processed [l])) hcnt hB
        (by
          intro m hm
          rcases List.mem_append.mp hm with h | h
          · exact hA m h
          · rw [List.mem_singleton] at h
            subst h; exact hr)
      rwa [hassoc] at this
    · have hne : l.source ≠ l.target := fun he => hr (by rw [he])
      have hsrcdeg : nodeDegree (processed ++ l :: rest) l.source ≤ D :=
        (hdeg l (List.mem_append.mpr (Or.inr (List.mem_cons_self l rest)))).1
      have htgtdeg : nodeDegree (processed ++ l :: rest) l.target ≤ D :=
        (hdeg l (List.mem_append.mpr (Or.inr (List.mem_cons_self l rest)))).2
      have hsplit : ∀ z, (z = l.source ∨ z = l.target) →
          nodeDegree processed z + 1 ≤ nodeDegree (processed ++ l :: rest) z := by
        intro z hz
        rw [nodeDegree, nodeDegree, List.countP_append, List.countP_cons]
        have hc : (z == l.source || z == l.target) = true := by
          rcases hz with h | h <;> simp [h]
        rw [if_pos hc]
        omega
      have h1 : s.count l.source < D := by
        have hle : s.count l.source ≤ nodeDegree processed l.source := by
          rw [hcnt]
          exact List.Sublist.countP_le _ hsub
        have hx := hsplit l.source (Or.inl rfl)
        omega
      have h2 : s.count l.target < D := by
        have hle : s.count l.target ≤ nodeDegree processed l.target := by
          rw [hcnt]
          exact List.Sublist.countP_le _ hsub
        have hx := hsplit l.target (Or.inr rfl)
        omega
      rw [phase1Step, if_pos hr, if_pos ⟨h1, h2⟩]
      have := ih (processed ++ [l])
        { root := unionRoot s.root l.source l.target
          count := updateCounts s.count l.source l.target
          links := s.links ++ [l]
          added := s.added ++ [linkKey l] }
        (by rw [hassoc]; exact hdeg)
        (hsub.append (List.Sublist.refl [l]))
        (by
          intro z
          simp only [updateCounts, nodeDegree_append]
          by_cases hz2 : z = l.target
          · simp [hz2, hcnt, hne.symm]
          · by_cases hz1 : z = l.source
            · simp [hz1, hz2, hcnt, hne]
            · simp [hz1, hz2, hcnt])
        (by
          intro a b hab
          simp only [unionRoot] at hab
          by_cases ha : s.root a = s.root l.source <;>
            by_cases hb : s.root b = s.root l.source <;>
              simp only [ha, hb, if_pos, if_neg, if_true, if_false] at hab
          · exact linksConnected_mono _ _ (hB a b (ha.trans hb.symm))
          · exact Relation.ReflTransGen.trans
              (linksConnected_mono _ [l] (hB a l.source ha))
              (Relation.ReflTransGen.trans
                (Relation.ReflTransGen.single
                  ⟨l, List.mem_append.mpr (Or.inr (List.mem_singleton.mpr rfl)),
                    Or.inl ⟨rfl, rfl⟩⟩)
                (linksConnected_mono _ [l] (hB l.target b hab)))
          · exact Relation.ReflTransGen.trans
              (linksConnected_mono _ [l] (hB a l.target hab))
              (Relation.ReflTransGen.trans
                (Relation.ReflTransGen.single
                  ⟨l, List.mem_append.mpr (Or.inr (List.mem_singleton.mpr rfl)),
                    Or.inr ⟨rfl, rfl⟩⟩)
                (linksConnected_mono _ [l] (hB l.source b hb.symm)))
          · exact linksConnected_mono _ _ (hB a b hab))
        (by
          intro m hm
          rcases List.mem_append.mp hm with h | h
          · exact unionRoot_eq_of_eq s.root l.source l.target _ _ (hA m h)
          · rw [List.mem_singleton] at h
            rw [h]
            simp [unionRoot])
      rwa [hassoc] at this

/-- Phase 1 from the initial state: equal roots imply connectivity, and
every candidate ends with its endpoints in one component (under the
degree-headroom hypothesis). -/
lemma phase1_main (D : Nat) (cands : List Link)
    (hdeg : ∀ l ∈ cands,
      nodeDegree cands l.source ≤ D ∧ nodeDegree cands l.target ≤ D) :
    (∀ x y, (cands.foldl (phase1Step D) initState).root x
          = (cands.foldl (phase1Step D) initState).root y →
        linksConnected (cands.foldl (phase1Step D) initState).links x y) ∧
    (∀ l ∈ cands,
        (cands.foldl (phase1Step D) initState).root l.source
          = (cands.foldl (phase1Step D) initState).root l.target) := by
  have := phase1_go D cands [] initState (by simpa using hdeg)
    (List.nil_sublist [])
    (by intro z; simp [initState, nodeDegree])
    (by
      intro x y h
      have hxy : x = y := h
      rw [hxy]
      exact Relation.ReflTransGen.refl)
    (by simp)
  rw [List.nil_append] at this
  exact ⟨this.2.1, this.2.2⟩

/-- Candidate-graph connectivity forces equal phase-1 roots. -/
lemma phase1_root_eq (D : Nat) (cands : List Link)
    (hdeg : ∀ l ∈ cands,
      nodeDegree cands l.source ≤ D ∧ nodeDegree cands l.target ≤ D)
    {x y : String} (h : linksConnected cands x y) :
    (cands.foldl (phase1Step D) initState).root x
      = (cands.foldl (phase1Step D) initState).root y := by
  obtain ⟨-, hA⟩ := phase1_main D cands hdeg
  induction h with
  | refl => rfl
  | tail hxb hbc ih =>
    obtain ⟨l, hl, hor⟩ := hbc
    rcases hor with ⟨h1, h2⟩ | ⟨h1, h2⟩
    · rw [ih, ← h1, ← h2]
      exact hA l hl
    · rw [ih, ← h1, ← h2]
      exact (hA l hl).symm

/-- Phase 2 only appends to the accepted link list. -/
lemma phase2_extends (D : Nat) :
    ∀ (rest : List Link) (s : BuildState),
      ∃ more, (rest.foldl (phase2Step D) s).links = s.links ++ more := by
  intro rest
  induction rest with
  | nil => intro s; exact ⟨[], (List.append_nil _).symm⟩
  | cons l rest ih =>
    intro s
    rw [List.foldl_cons]
    by_cases hk : linkKey l ∈ s.added
    · rw [phase2Step, if_pos hk]
      exact ih s
    · by_cases hc : s.count l.source < D ∧ s.count l.target < D
      · rw [phase2Step, if_neg hk, if_pos hc]
        obtain ⟨more, hm⟩ := ih
          { s with
            count := updateCounts s.count l.source l.target
            links := s.links ++ [l] }
        exact ⟨[l] ++ more, by rw [hm, List.append_assoc]⟩
      · rw [phase2Step, if_neg hk, if_neg hc]
        exact ih s

/-- Endpoints of candidate links are node ids. -/
lemma allPotentialLinks_endpoints (ns : List Node) :
    ∀ l ∈ allPotentialLinks ns,
      (∃ n ∈ ns, n.id = l.source) ∧ (∃ n ∈ ns, n.id = l.target) := by
  intro l hl
  rw [allPotentialLinks, List.mem_filterMap] at hl
  obtain ⟨p, hp, hsome⟩ := hl
  obtain ⟨hp1, hp2⟩ := allPairs_mem ns p hp
  simp only at hsome
  split at hsome
  · cases hsome
    exact ⟨⟨p.1, hp1, rfl⟩, ⟨p.2, hp2, rfl⟩⟩
  · cases hsome

/-- Core connectivity result: if every node id has at most `D` candidate
links, any two candidate-connected ids are connected in the built graph. -/
lemma buildGraphLinks_connects (D : Nat) (ns : List Node)
    (hdeg : ∀ n ∈ ns, nodeDegree (allPotentialLinks ns) n.id ≤ D)
    {x y : String}
    (h : linksConnected (allPotentialLinks ns) x y) :
    linksConnected (buildGraphLinks D ns) x y := by
  have hperm := sortByValueDesc_perm (allPotentialLinks ns)
  have hdeg' : ∀ l ∈ sortByValueDesc (allPotentialLinks ns),
      nodeDegree (sortByValueDesc (allPotentialLinks ns)) l.source ≤ D ∧
      nodeDegree (sortByValueDesc (allPotentialLinks ns)) l.target ≤ D := by
    intro l hl
    have hl' : l ∈ allPotentialLinks ns := hperm.mem_iff.mp hl
    obtain ⟨⟨n1, hn1, he1⟩, ⟨n2, hn2, he2⟩⟩ :=
      allPotentialLinks_endpoints ns l hl'
    rw [nodeDegree, nodeDegree, hperm.countP_eq, hperm.countP_eq]
    exact ⟨he1 ▸ hdeg n1 hn1, he2 ▸ hdeg n2 hn2⟩
  have hconn' : linksConnected (sortByValueDesc (allPotentialLinks ns)) x y :=
    linksConnected_perm hperm.symm h
  have hroot := phase1_root_eq D _ hdeg' hconn'
  obtain ⟨hB, -⟩ := phase1_main D _ hdeg'
  have h1 := hB x y hroot
  obtain ⟨more, hm⟩ := phase2_extends D (sortByValueDesc (allPotentialLinks ns))
    ((sortByValueDesc (allPotentialLinks ns)).foldl (phase1Step D) initState)
  rw [buildGraphLinks, hm]
  exact linksConnected_mono _ more h1

/-- C1 (amended): for a non-empty artist list whose shared-genre similarity
relation connects every pair of artists, **and in which every artist has at
most `D = 5` similarity neighbours** (so the degree cap can never reject a
bridge), the output of `artistsToGraphData` is a single connected
component over its node set. -/
theorem c1_connected_amended (artists : List Artist)
    (hne : artists ≠ [])
    (hconn : ∀ a ∈ artists, ∀ b ∈ artists, simConnected artists a.id b.id)
    (hdeg : ∀ a ∈ artists,
      nodeDegree (allPotentialLinks (artists.map artistToNode)) a.id ≤ 5) :
    ∀ x ∈ (artistsToGraphData (some artists)).nodes,
      ∀ y ∈ (artistsToGraphData (some artists)).nodes,
        linksConnected (artistsToGraphData (some artists)).links x.id y.id := by
  have hlen : ¬ artists.length = 0 := by
    intro h
    exact hne (List.length_eq_zero.mp h)
  intro x hx y hy
  simp only [artistsToGraphData, artistsToGraphDataD, if_neg hlen] at hx hy ⊢
  rw [List.mem_filter] at hx hy
  obtain ⟨a, ha, hax⟩ := List.mem_map.mp hx.1
  obtain ⟨b, hb, hby⟩ := List.mem_map.mp hy.1
  have hdeg' : ∀ n ∈ artists.map artistToNode,
      nodeDegree (allPotentialLinks (artists.map artistToNode)) n.id ≤ 5 := by
    intro n hn
    obtain ⟨a', ha', rfl⟩ := List.mem_map.mp hn
    exact hdeg a' ha'
  have hxid : x.id = a.id := by rw [← hax]; rfl
  have hyid : y.id = b.id := by rw [← hby]; rfl
  have hsim : linksConnected
      (allPotentialLinks (artists.map artistToNode)) x.id y.id := by
    rw [hxid, hyid]
    exact hconn a ha b hb
  exact @buildGraphLinks_connects 5 (artists.map artistToNode) hdeg'
    x.id y.id hsim

/-- Witness for the amended C1 on a concrete two-artist input. -/
theorem c1_connected_amended_witness :
    ([c5A, c5B] ≠ []) ∧
    (∀ a ∈ [c5A, c5B], ∀ b ∈ [c5A, c5B], simConnected [c5A, c5B] a.id b.id) ∧
    (∀ a ∈ [c5A, c5B],
      nodeDegree (allPotentialLinks ([c5A, c5B].map artistToNode)) a.id ≤ 5) ∧
    ∀ x ∈ (artistsToGraphData (some [c5A, c5B])).nodes,
      ∀ y ∈ (artistsToGraphData (some [c5A, c5B])).nodes,
        linksConnected (artistsToGraphData (some [c5A, c5B])).links x.id y.id := by
  have hconn : ∀ a ∈ [c5A, c5B], ∀ b ∈ [c5A, c5B],
      simConnected [c5A, c5B] a.id b.id := by
    intro a ha b hb
    fin_cases ha <;> fin_cases hb
    · exact Relation.ReflTransGen.refl
    · exact Relation.ReflTransGen.single
        ⟨{ source := "A", target := "B", sharedGenres := ["g1", "g2", "g3"] },
          by decide, Or.inl ⟨rfl, rfl⟩⟩
    · exact Relation.ReflTransGen.single
        ⟨{ source := "A", target := "B", sharedGenres := ["g1", "g2", "g3"] },
          by decide, Or.inr ⟨rfl, rfl⟩⟩
    · exact Relation.ReflTransGen.refl
  exact ⟨by simp, hconn, by decide,
    c1_connected_amended [c5A, c5B] (by simp) hconn (by decide)⟩

-- ## C1 counterexample: the degree cap can fragment a similarity-connected
-- input even with the source's cap D = 5.  A hub `H` saturates its five
-- slots on strong edges to leaves `L1..L5`; the only similarity link from
-- the pair `X–Y` to the rest of the graph goes through the saturated `H`,
-- so the built graph has two components over its (complete) node set.

/-- Counterexample hub artist. -/
def cxH : Artist :=
  { id := "H", name := "H",
    genres := ["a1", "b1", "a2", "b2", "a3", "b3", "a4", "b4", "a5", "b5", "x"] }

/-- Counterexample leaf artist 1. -/
def cxL1 : Artist := { id := "L1", name := "L1", genres := ["a1", "b1"] }

/-- Counterexample leaf artist 2. -/
def cxL2 : Artist := { id := "L2", name := "L2", genres := ["a2", "b2"] }

/-- Counterexample leaf artist 3. -/
def cxL3 : Artist := { id := "L3", name := "L3", genres := ["a3", "b3"] }

/-- Counterexample leaf artist 4. -/
def cxL4 : Artist := { id := "L4", name := "L4", genres := ["a4", "b4"] }

/-- Counterexample leaf artist 5. -/
def cxL5 : Artist := { id := "L5", name := "L5", genres := ["a5", "b5"] }

/-- Counterexample artist connected to the rest only through the hub. -/
def cxX : Artist := { id := "X", name := "X", genres := ["x", "y"] }

/-- Counterexample artist connected only to `X`. -/
def cxY : Artist := { id := "Y", name := "Y", genres := ["y"] }

/-- The full counterexample input. -/
def cxArtists : List Artist := [cxH, cxL1, cxL2, cxL3, cxL4, cxL5, cxX, cxY]

/-- Adjacency is symmetric. -/
lemma linkAdj_symm (ls : List Link) : ∀ {x y : String},
    linkAdj ls x y → linkAdj ls y x := by
  intro x y ⟨l, hl, hor⟩
  exact ⟨l, hl, hor.symm⟩

/-- Link-path connectivity is symmetric. -/
lemma linksConnected_symm (ls : List Link) {x y : String}
    (h : linksConnected ls x y) : linksConnected ls y x :=
  Relation.ReflTransGen.symmetric (fun _ _ hab => linkAdj_symm ls hab) h

/-- A set of ids closed under the links is closed under link-paths. -/
lemma linksConnected_closed (ls : List Link) (S : List String)
    (hcl : ∀ l ∈ ls, (l.source ∈ S ↔ l.target ∈ S)) {x y : String}
    (h : linksConnected ls x y) (hx : x ∈ S) : y ∈ S := by
  induction h with
  | refl => exact hx
  | tail _ hbc ih =>
    obtain ⟨l, hl, hor⟩ := hbc
    rcases hor with ⟨h1, h2⟩ | ⟨h1, h2⟩
    · rw [← h2]
      exact (hcl l hl).mp (by rw [h1]; exact ih)
    · rw [← h1]
      exact (hcl l hl).mpr (by rw [h2]; exact ih)

/-- C1 (counterexample to the claim as stated): `cxArtists` is non-empty
and its shared-genre similarity relation connects every pair of artists,
yet the graph returned by `artistsToGraphData` is *not* a single connected
component over its node set: the hub `H` saturates its degree cap before
the bridge `H–X` is considered, leaving `{X, Y}` as a second component. -/
theorem c1_counterexample :
    cxArtists ≠ [] ∧
    (∀ a ∈ cxArtists, ∀ b ∈ cxArtists, simConnected cxArtists a.id b.id) ∧
    ¬ (∀ x ∈ (artistsToGraphData (some cxArtists)).nodes,
        ∀ y ∈ (artistsToGraphData (some cxArtists)).nodes,
          linksConnected (artistsToGraphData (some cxArtists)).links x.id y.id) := by
  have hub : ∀ a ∈ cxArtists,
      linksConnected (allPotentialLinks (cxArtists.map artistToNode)) a.id "H" := by
    intro a ha
    fin_cases ha
    · exact Relation.ReflTransGen.refl
    · exact Relation.ReflTransGen.single
        ⟨{ source := "H", target := "L1", sharedGenres := ["a1", "b1"] },
          by decide, Or.inr ⟨rfl, rfl⟩⟩
    · exact Relation.ReflTransGen.single
        ⟨{ source := "H", target := "L2", sharedGenres := ["a2", "b2"] },
          by decide, Or.inr ⟨rfl, rfl⟩⟩
    · exact Relation.ReflTransGen.single
        ⟨{ source := "H", target := "L3", sharedGenres := ["a3", "b3"] },
          by decide, Or.inr ⟨rfl, rfl⟩⟩
    · exact Relation.ReflTransGen.single
        ⟨{ source := "H", target := "L4", sharedGenres := ["a4", "b4"] },
          by decide, Or.inr ⟨rfl, rfl⟩⟩
    · exact Relation.ReflTransGen.single
        ⟨{ source := "H", target := "L5", sharedGenres := ["a5", "b5"] },
          by decide, Or.inr ⟨rfl, rfl⟩⟩
    · exact Relation.ReflTransGen.single
        ⟨{ source := "H", target := "X", sharedGenres := ["x"] },
          by decide, Or.inr ⟨rfl, rfl⟩⟩
    · exact Relation.ReflTransGen.head
        ⟨{ source := "X", target := "Y", sharedGenres := ["y"] },
          by decide, Or.inr ⟨rfl, rfl⟩⟩
        (Relation.ReflTransGen.single
          ⟨{ source := "H", target := "X", sharedGenres := ["x"] },
            by decide, Or.inr ⟨rfl, rfl⟩⟩)
  refine ⟨by simp [cxArtists], ?_, ?_⟩
  · intro a ha b hb
    exact Relation.ReflTransGen.trans (hub a ha)
      (linksConnected_symm _ (hub b hb))
  · intro hall
    have hH : artistToNode cxH ∈ (artistsToGraphData (some cxArtists)).nodes := by
      decide
    have hX : artistToNode cxX ∈ (artistsToGraphData (some cxArtists)).nodes := by
      decide
    have hc := hall (artistToNode cxH) hH (artistToNode cxX) hX
    have hcl : ∀ l ∈ (artistsToGraphData (some cxArtists)).links,
        (l.source ∈ ["H", "L1", "L2", "L3", "L4", "L5"] ↔
         l.target ∈ ["H", "L1", "L2", "L3", "L4", "L5"]) := by
      decide
    have hmem := linksConnected_closed _ _ hcl hc (by decide)
    exact absurd hmem (by decide)

-- ## Game session state machine (`useConnectionsGame`)

/-- Game phase: `'idle' | 'setup' | 'playing' | 'complete'`. -/
inductive GamePhase where
  | idle
  | setup
  | playing
  | complete
deriving DecidableEq, Repr

/-- Node display state returned by `getNodeState`. -/
inductive NodeStatus where
  | normal
  | target
  | current
  | start
  | path
  | failed
  | revealed
  | hidden
deriving DecidableEq, Repr

/-- The `type` field of a guess/hint result. -/
inductive GuessType where
  | not_found
  | already_in_path
  | complete
  | connected
  | not_connected
  | hint
  | hint_invalid
  | no_hidden
deriving DecidableEq, Repr

/-- A `lastGuessResult` value: `{ success, type, artist, message }`. -/
structure GuessResult where
  success : Bool
  type : GuessType
  artist : Option Node
  message : String
deriving DecidableEq, Repr

/-- One `failedGuesses` entry: `{ artist, fromArtist }`. -/
structure FailedGuess where
  artist : Node
  fromArtist : Option Node
deriving DecidableEq, Repr

/-- The game state of `useConnectionsGame`.  `mode`, `optimalPath`,
`optimalHops`, `startTime` and `endTime` are omitted: they are never read
by the transitions under verification (`startTime`/`endTime` are wall-clock
values).  `revealedArtists` is a JS `Set`, embedded as a list with
insert-if-absent. -/
structure GameState where
  phase : GamePhase
  startArtist : Option Node
  targetArtist : Option Node
  currentArtist : Option Node
  path : List String
  pathArtists : List Node
  hops : Nat
  revealedArtists : List String
  failedGuesses : List FailedGuess
  guessCount : Nat
  hintCount : Nat
  hintSelectionActive : Bool
  lastGuessResult : Option GuessResult
deriving DecidableEq, Repr

/-- Modelled from the spec: the pathfinding module (`buildAdjacencyList`)
is not in the provided sources.  Spec §4.3 Adjacency Index: a "mapping from
node id to set of neighbor node ids, built once from `edges`". -/
def buildAdjacencyList (links : List Link) : String → List String :=
  fun x => links.foldl
    (fun acc l =>
      if l.source = x then acc ++ [l.target]
      else if l.target = x then acc ++ [l.source]
      else acc) []

/-- Modelled from the spec: the pathfinding module (`isValidMove`) is not
in the provided sources.  Spec §4.5: the session "validates each proposed
move against the Adjacency Index", i.e. the destination must be a neighbor
of the origin. -/
def isValidMove (adj : String → List String) (fromId toId : String) : Bool :=
  (adj fromId).contains toId

/-- Model of the JS builtin `String.prototype.trim()` used on the raw
guess: strip whitespace from both ends. -/
def jsTrim (s : String) : String :=
  String.mk (((s.data.dropWhile Char.isWhitespace).reverse.dropWhile
    Char.isWhitespace).reverse)

/-- Modelled from the spec: the pathfinding module (`normalizeArtistName`)
is not in the provided sources.  Spec §4.6 Fuzzy Resolver normalization:
"case-fold and strip non-alphanumeric characters before comparison". -/
def normalizeArtistName (s : String) : String :=
  String.mk ((s.data.map Char.toLower).filter Char.isAlphanum)

/-- Model of the JS builtin `Array.prototype.indexOf` used by `goBackTo`
(first index of the element, `-1` becomes `none`). -/
def jsIndexOf : List String → String → Option Nat
  | [], _ => none
  | a :: l, t => if a = t then some 0 else (jsIndexOf l t).map (· + 1)

/-- Guess resolution inside `submitGuess`: `nodeMap.get(rawGuess)` (lookup
by exact id), else case-insensitive normalized-name lookup over
`graphData.nodes`. -/
def resolveGuess (nodes : List Node) (rawGuess : String) : Option Node :=
  match nodes.find? (fun n => n.id == rawGuess) with
  | some a => some a
  | none =>
    nodes.find? (fun n =>
      normalizeArtistName n.name == normalizeArtistName rawGuess)

/-- Source `getNodeState(nodeId)`: display-state derivation, evaluated in the
source's priority order (target > current > start > path > failed >
revealed > hidden; `normal` outside of play). -/
def getNodeState (gs : GameState) (nodeId : String) : NodeStatus :=
  if gs.phase ≠ GamePhase.playing ∧ gs.phase ≠ GamePhase.complete then
    NodeStatus.normal
  else if gs.targetArtist.map Node.id = some nodeId then NodeStatus.target
  else if gs.currentArtist.map Node.id = some nodeId then NodeStatus.current
  else if gs.startArtist.map Node.id = some nodeId then NodeStatus.start
  else if nodeId ∈ gs.path then NodeStatus.path
  else if gs.failedGuesses.any (fun fg => fg.artist.id == nodeId) then
    NodeStatus.failed
  else if nodeId ∈ gs.revealedArtists then NodeStatus.revealed
  else NodeStatus.hidden

/-- Source `beginPlaying()`: seed the path with the start artist, reveal start and
target, enter the `playing` phase.  The source dereferences
`prev.startArtist.id` and `prev.targetArtist.id`; on a state where either
is null the JS would throw, embedded as the identity. -/
def beginPlaying (gs : GameState) : GameState :=
  match gs.startArtist, gs.targetArtist with
  | some s, some t =>
    { gs with
      phase := GamePhase.playing
      currentArtist := some s
      path := [s.id]
      pathArtists := [s]
      hops := 0
      revealedArtists := List.insert t.id [s.id] }
  | _, _ => gs

/-- Source `submitGuess(artistNameOrId)`: returns the updated state and the
returned result (`none` models the early `return null`).  The list of
graph nodes and the adjacency index are the hook's `graphData.nodes` /
`adjacency` context. -/
def submitGuess (nodes : List Node) (adj : String → List String)
    (gs : GameState) (input : Option String) : GameState × Option GuessResult :=
  if gs.phase ≠ GamePhase.playing then (gs, none)
  else match input with
  | none => (gs, none)
  | some str =>
    let rawGuess := jsTrim str
    if rawGuess = "" then (gs, none)
    else match resolveGuess nodes rawGuess with
    | none =>
      let r : GuessResult :=
        { success := false, type := GuessType.not_found, artist := none
          message := "Artist not in your listening history" }
      ({ gs with lastGuessResult := some r, guessCount := gs.guessCount + 1 },
        some r)
    | some artist =>
      if artist.id ∈ gs.path then
        let r : GuessResult :=
          { success := false, type := GuessType.already_in_path
            artist := some artist
            message := artist.name ++ " is already in your path" }
        ({ gs with lastGuessResult := some r }, some r)
      else
        match gs.currentArtist, gs.targetArtist with
        | some cur, some tgt =>
          if isValidMove adj cur.id artist.id then
            if artist.id = tgt.id then
              let r : GuessResult :=
                { success := true, type := GuessType.complete
                  artist := some artist, message := "Connection found!" }
              ({ gs with
                  phase := GamePhase.complete
                  currentArtist := some artist
                  path := gs.path ++ [artist.id]
                  pathArtists := gs.pathArtists ++ [artist]
                  hops := gs.hops + 1
                  revealedArtists := gs.revealedArtists.insert artist.id
                  guessCount := gs.guessCount + 1
                  lastGuessResult := some r }, some r)
            else
              let r : GuessResult :=
                { success := true, type := GuessType.connected
                  artist := some artist
                  message := "Connected to " ++ artist.name ++ "!" }
              ({ gs with
                  currentArtist := some artist
                  path := gs.path ++ [artist.id]
                  pathArtists := gs.pathArtists ++ [artist]
                  hops := gs.hops + 1
                  revealedArtists := gs.revealedArtists.insert artist.id
                  guessCount := gs.guessCount + 1
                  lastGuessResult := some r }, some r)
          else
            let r : GuessResult :=
              { success := false, type := GuessType.not_connected
                artist := some artist
                message := artist.name ++ " is not connected to " ++ cur.name }
            ({ gs with
                revealedArtists := gs.revealedArtists.insert artist.id
                failedGuesses := gs.failedGuesses ++
                  [{ artist := artist, fromArtist := some cur }]
                guessCount := gs.guessCount + 1
                lastGuessResult := some r }, some r)
        -- unreachable while playing: the JS dereferences
        -- `gameState.currentArtist.id` / `gameState.targetArtist.id`
        -- and would throw on null
        | _, _ => (gs, none)

/-- Config flag `CONNECTIONS_CONFIG.gameplay.allowBacktrack`. -/
def allowBacktrack : Bool := true

/-- Source `goBackTo(artistId)`: truncate the path at an earlier occurrence of the
id; returns the updated state and the boolean result. -/
def goBackTo (nodes : List Node) (gs : GameState) (artistId : String) :
    GameState × Bool :=
  if gs.phase ≠ GamePhase.playing then (gs, false)
  else if allowBacktrack = false then (gs, false)
  else match jsIndexOf gs.path artistId with
  | none => (gs, false)
  | some index =>
    if index = gs.path.length - 1 then (gs, false)
    else
      ({ gs with
          currentArtist := nodes.find? (fun n => n.id == artistId)
          path := gs.path.take (index + 1)
          pathArtists := gs.pathArtists.take (index + 1)
          hops := (gs.path.take (index + 1)).length - 1
          lastGuessResult := none }, true)

/-- Source `revealHintNode(nodeId)`: reveal a hidden node, count the hint, clear
hint-selection; report `hint_invalid` against a non-hidden node. -/
def revealHintNode (nodes : List Node) (gs : GameState) (nodeId : String) :
    GameState × Option GuessResult :=
  if gs.phase ≠ GamePhase.playing ∨ gs.hintSelectionActive = false then
    (gs, none)
  else match nodes.find? (fun n => n.id == nodeId) with
  | none => (gs, none)
  | some revealedArtist =>
    if getNodeState gs nodeId ≠ NodeStatus.hidden then
      let r : GuessResult :=
        { success := false, type := GuessType.hint_invalid, artist := none
          message := "Select a hidden node to reveal" }
      ({ gs with lastGuessResult := some r }, some r)
    else
      let r : GuessResult :=
        { success := true, type := GuessType.hint
          artist := some revealedArtist
          message := "Revealed: " ++ revealedArtist.name }
      ({ gs with
          revealedArtists := gs.revealedArtists.insert nodeId
          hintCount := gs.hintCount + 1
          hintSelectionActive := false
          lastGuessResult := some r }, some r)

/-- A player action during the `playing` phase. -/
inductive GameEvent where
  | guess : Option String → GameEvent
  | back : String → GameEvent
deriving Repr

/-- Apply one event to the state (discarding the returned result). -/
def applyEvent (nodes : List Node) (adj : String → List String)
    (gs : GameState) : GameEvent → GameState
  | GameEvent.guess i => (submitGuess nodes adj gs i).1
  | GameEvent.back a => (goBackTo nodes gs a).1

/-- Run a sequence of `submitGuess` / `goBackTo` events. -/
def runEvents (nodes : List Node) (adj : String → List String)
    (gs : GameState) (evs : List GameEvent) : GameState :=
  evs.foldl (applyEvent nodes adj) gs

-- ## C10: guard clauses of `submitGuess`

/-- C10: `submitGuess` returns `null` and leaves the whole state unchanged
when the phase is not `playing`, or the argument is `null`/`undefined`, or
the trimmed argument is empty. -/
theorem c10_submitGuess_rejects (nodes : List Node)
    (adj : String → List String) (gs : GameState) (input : Option String)
    (h : gs.phase ≠ GamePhase.playing ∨ input = none ∨
      ∃ s, input = some s ∧ jsTrim s = "") :
    submitGuess nodes adj gs input = (gs, none) := by
  rcases h with h | h | ⟨s, rfl, hs⟩
  · rw [submitGuess.eq_def, if_pos h]
  · subst h
    rw [submitGuess.eq_def]
    split <;> rfl
  · rw [submitGuess.eq_def]
    by_cases hp : gs.phase ≠ GamePhase.playing
    · rw [if_pos hp]
    · rw [if_neg hp]
      simp [hs]

/-- Concrete fixture node A (start). -/
def nA : Node := { id := "A", name := "Artist A", genres := ["g1"] }

/-- Concrete fixture node B. -/
def nB : Node := { id := "B", name := "Artist B", genres := ["g1"] }

/-- Concrete fixture node C (target). -/
def nC : Node := { id := "C", name := "Artist C", genres := ["g1"] }

/-- Concrete fixture node D (not on the A–B–C path; hidden in play). -/
def nD : Node := { id := "D", name := "Artist D", genres := ["g2"] }

/-- Concrete fixture node list. -/
def wNodes : List Node := [nA, nB, nC, nD]

/-- Concrete fixture links: a path A–B–C. -/
def wLinks : List Link :=
  [{ source := "A", target := "B", sharedGenres := ["g1"] },
   { source := "B", target := "C", sharedGenres := ["g1"] }]

/-- Concrete fixture adjacency index. -/
def wAdj : String → List String := buildAdjacencyList wLinks

/-- Concrete mid-game fixture state: playing, path `[A, B]`. -/
def wState : GameState :=
  { phase := GamePhase.playing
    startArtist := some nA
    targetArtist := some nC
    currentArtist := some nB
    path := ["A", "B"]
    pathArtists := [nA, nB]
    hops := 1
    revealedArtists := ["A", "C", "B"]
    failedGuesses := []
    guessCount := 1
    hintCount := 0
    hintSelectionActive := false
    lastGuessResult := none }

/-- Witness for C10: a `null` guess in the playing phase is a no-op. -/
theorem c10_submitGuess_rejects_witness :
    submitGuess wNodes wAdj wState none = (wState, none) :=
  c10_submitGuess_rejects wNodes wAdj wState none (Or.inr (Or.inl rfl))

-- ## C7: guesses already in the path

/-- C7: in the playing phase, a guess resolving to a node already in `path`
yields an `already_in_path` result and changes none of `guessCount`,
`path`, `hops`, `revealedArtists`, `failedGuesses` (only the transient
`lastGuessResult` feedback is set). -/
theorem c7_already_in_path (nodes : List Node) (adj : String → List String)
    (gs : GameState) (str : String) (artist : Node)
    (hph : gs.phase = GamePhase.playing)
    (hne : jsTrim str ≠ "")
    (hres : resolveGuess nodes (jsTrim str) = some artist)
    (hmem : artist.id ∈ gs.path) :
    ∃ r, submitGuess nodes adj gs (some str) =
        ({ gs with lastGuessResult := some r }, some r) ∧
      r.type = GuessType.already_in_path ∧
      r.success = false ∧
      (submitGuess nodes adj gs (some str)).1.guessCount = gs.guessCount ∧
      (submitGuess nodes adj gs (some str)).1.path = gs.path ∧
      (submitGuess nodes adj gs (some str)).1.hops = gs.hops ∧
      (submitGuess nodes adj gs (some str)).1.revealedArtists
        = gs.revealedArtists ∧
      (submitGuess nodes adj gs (some str)).1.failedGuesses
        = gs.failedGuesses := by
  obtain ⟨r, hr⟩ : ∃ r : GuessResult,
      r = { success := false, type := GuessType.already_in_path
            artist := some artist
            message := artist.name ++ " is already in your path" } :=
    ⟨_, rfl⟩
  have heq : submitGuess nodes adj gs (some str) =
      ({ gs with lastGuessResult := some r }, some r) := by
    rw [submitGuess.eq_def,
      if_neg (show ¬gs.phase ≠ GamePhase.playing by simp [hph])]
    simp only [if_neg hne, hres, if_pos hmem, hr]
  refine ⟨r, heq, by rw [hr], by rw [hr], ?_, ?_, ?_, ?_, ?_⟩ <;> rw [heq]

/-- Witness for C7: guessing `"B"` (already in the path `[A, B]`) in the
fixture game. -/
theorem c7_already_in_path_witness :
    ∃ r, submitGuess wNodes wAdj wState (some "B") =
        ({ wState with lastGuessResult := some r }, some r) ∧
      r.type = GuessType.already_in_path ∧
      r.success = false ∧
      (submitGuess wNodes wAdj wState (some "B")).1.guessCount
        = wState.guessCount ∧
      (submitGuess wNodes wAdj wState (some "B")).1.path = wState.path ∧
      (submitGuess wNodes wAdj wState (some "B")).1.hops = wState.hops ∧
      (submitGuess wNodes wAdj wState (some "B")).1.revealedArtists
        = wState.revealedArtists ∧
      (submitGuess wNodes wAdj wState (some "B")).1.failedGuesses
        = wState.failedGuesses :=
  c7_already_in_path wNodes wAdj wState "B" nB rfl (by decide) (by decide)
    (by decide)

-- ## C8: hint reveal

/-- C8: in the playing phase with hint selection active and `nodeId` the id
of a graph node, `revealHintNode` succeeds exactly when the node's display
state is `hidden`; on success it inserts the node into `revealedArtists`,
increments `hintCount` and clears `hintSelectionActive`; on a non-hidden
node it reports `hint_invalid` and leaves those three fields unchanged. -/
theorem c8_revealHintNode (nodes : List Node) (gs : GameState)
    (nodeId : String)
    (hph : gs.phase = GamePhase.playing)
    (hsel : gs.hintSelectionActive = true)
    (hex : ∃ n ∈ nodes, n.id = nodeId) :
    ((∃ r, (revealHintNode nodes gs nodeId).2 = some r ∧ r.success = true) ↔
      getNodeState gs nodeId = NodeStatus.hidden) ∧
    (getNodeState gs nodeId = NodeStatus.hidden →
      (revealHintNode nodes gs nodeId).1.revealedArtists
        = gs.revealedArtists.insert nodeId ∧
      (revealHintNode nodes gs nodeId).1.hintCount = gs.hintCount + 1 ∧
      (revealHintNode nodes gs nodeId).1.hintSelectionActive = false ∧
      ∃ r, (revealHintNode nodes gs nodeId).2 = some r ∧
        r.type = GuessType.hint) ∧
    (getNodeState gs nodeId ≠ NodeStatus.hidden →
      (revealHintNode nodes gs nodeId).1.revealedArtists
        = gs.revealedArtists ∧
      (revealHintNode nodes gs nodeId).1.hintCount = gs.hintCount ∧
      (revealHintNode nodes gs nodeId).1.hintSelectionActive
        = gs.hintSelectionActive ∧
      ∃ r, (revealHintNode nodes gs nodeId).2 = some r ∧
        r.type = GuessType.hint_invalid) := by
  have hguard : ¬(gs.phase ≠ GamePhase.playing ∨
      gs.hintSelectionActive = false) := by
    simp [hph, hsel]
  have hfind : ∃ a, nodes.find? (fun n => n.id == nodeId) = some a := by
    rw [← Option.isSome_iff_exists, List.find?_isSome]
    obtain ⟨n0, hn0, hid⟩ := hex
    exact ⟨n0, hn0, by simp [hid]⟩
  obtain ⟨a, ha⟩ := hfind
  by_cases hst : getNodeState gs nodeId = NodeStatus.hidden
  · obtain ⟨r, hr⟩ : ∃ r : GuessResult,
        r = { success := true, type := GuessType.hint
              artist := some a
              message := "Revealed: " ++ a.name } := ⟨_, rfl⟩
    have heq : revealHintNode nodes gs nodeId =
        ({ gs with
            revealedArtists := gs.revealedArtists.insert nodeId
            hintCount := gs.hintCount + 1
            hintSelectionActive := false
            lastGuessResult := some r }, some r) := by
      rw [revealHintNode.eq_def, if_neg hguard, ha]
      simp only [if_neg (show ¬getNodeState gs nodeId ≠ NodeStatus.hidden by
        simp [hst]), hr]
    refine ⟨⟨fun _ => hst, fun _ => ⟨r, by rw [heq], by rw [hr]⟩⟩,
      fun _ => ⟨by rw [heq], by rw [heq], by rw [heq],
        r, by rw [heq], by rw [hr]⟩,
      fun hc => absurd hst hc⟩
  · obtain ⟨r, hr⟩ : ∃ r : GuessResult,
        r = { success := false, type := GuessType.hint_invalid
              artist := none
              message := "Select a hidden node to reveal" } := ⟨_, rfl⟩
    have heq : revealHintNode nodes gs nodeId =
        ({ gs with lastGuessResult := some r }, some r) := by
      rw [revealHintNode.eq_def, if_neg hguard, ha]
      simp only [if_pos hst, hr]
    refine ⟨⟨?_, fun hc => absurd hc hst⟩,
      fun hc => absurd hc hst,
      fun _ => ⟨by rw [heq], by rw [heq], by rw [heq, hsel],
        r, by rw [heq], by rw [hr]⟩⟩
    intro ⟨r', hr2', hsucc⟩
    rw [heq] at hr2'
    have hrr : r = r' := by simpa using hr2'
    rw [← hrr, hr] at hsucc
    simp at hsucc

/-- Fixture state with hint selection active and `D` hidden. -/
def wStateHint : GameState :=
  { wState with hintSelectionActive := true, revealedArtists := ["A", "C"] }

/-- Witness for C8: revealing the hidden node `D` in the fixture game. -/
theorem c8_revealHintNode_witness :
    ((∃ r, (revealHintNode wNodes wStateHint "D").2 = some r ∧
        r.success = true) ↔
      getNodeState wStateHint "D" = NodeStatus.hidden) ∧
    (getNodeState wStateHint "D" = NodeStatus.hidden →
      (revealHintNode wNodes wStateHint "D").1.revealedArtists
        = wStateHint.revealedArtists.insert "D" ∧
      (revealHintNode wNodes wStateHint "D").1.hintCount
        = wStateHint.hintCount + 1 ∧
      (revealHintNode wNodes wStateHint "D").1.hintSelectionActive = false ∧
      ∃ r, (revealHintNode wNodes wStateHint "D").2 = some r ∧
        r.type = GuessType.hint) ∧
    (getNodeState wStateHint "D" ≠ NodeStatus.hidden →
      (revealHintNode wNodes wStateHint "D").1.revealedArtists
        = wStateHint.revealedArtists ∧
      (revealHintNode wNodes wStateHint "D").1.hintCount
        = wStateHint.hintCount ∧
      (revealHintNode wNodes wStateHint "D").1.hintSelectionActive
        = wStateHint.hintSelectionActive ∧
      ∃ r, (revealHintNode wNodes wStateHint "D").2 = some r ∧
        r.type = GuessType.hint_invalid) :=
  c8_revealHintNode wNodes wStateHint "D" rfl rfl (by decide)

-- ## C6: backtracking

/-- The index `jsIndexOf` returns holds the element. -/
lemma jsIndexOf_get :
    ∀ (l : List String) (t : String) (i : Nat),
      jsIndexOf l t = some i → l.get? i = some t := by
  intro l
  induction l with
  | nil => intro t i h; cases h
  | cons a l ih =>
    intro t i h
    rw [jsIndexOf] at h
    by_cases ha : a = t
    · rw [if_pos ha] at h
      cases h
      simp [ha]
    · rw [if_neg ha] at h
      obtain ⟨j, hj, rfl⟩ := Option.map_eq_some'.mp h
      simpa using ih t j hj

/-- The index `jsIndexOf` returns is the first occurrence. -/
lemma jsIndexOf_min :
    ∀ (l : List String) (t : String) (i : Nat),
      jsIndexOf l t = some i → ∀ j, l.get? j = some t → i ≤ j := by
  intro l
  induction l with
  | nil => intro t i h; cases h
  | cons a l ih =>
    intro t i h j hj
    rw [jsIndexOf] at h
    by_cases ha : a = t
    · rw [if_pos ha] at h
      cases h
      exact Nat.zero_le j
    · rw [if_neg ha] at h
      obtain ⟨k, hk, rfl⟩ := Option.map_eq_some'.mp h
      match j with
      | 0 =>
        rw [List.get?_cons_zero] at hj
        exact absurd (Option.some.inj hj) ha
      | j + 1 =>
        rw [List.get?_cons_succ] at hj
        simpa using ih t k hk j hj

/-- A `none` result means the element occurs nowhere. -/
lemma jsIndexOf_none :
    ∀ (l : List String) (t : String), jsIndexOf l t = none →
      ∀ j, l.get? j ≠ some t := by
  intro l
  induction l with
  | nil => intro t _ j; simp
  | cons a l ih =>
    intro t h j
    rw [jsIndexOf] at h
    by_cases ha : a = t
    · rw [if_pos ha] at h; cases h
    · rw [if_neg ha] at h
      rw [Option.map_eq_none'] at h
      match j with
      | 0 => simpa using ha
      | j + 1 => simpa using ih t h j

/-- The last element of `take (i+1)` is the element at index `i`. -/
lemma getLast?_take_succ :
    ∀ (l : List String) (i : Nat) (x : String),
      l.get? i = some x → (l.take (i + 1)).getLast? = some x := by
  intro l
  induction l with
  | nil => intro i x h; cases h
  | cons a l ih =>
    intro i x h
    match i with
    | 0 =>
      rw [List.get?_cons_zero] at h
      cases h
      rfl
    | i + 1 =>
      rw [List.get?_cons_succ] at h
      have := ih i x h
      rw [List.take_succ_cons]
      match l, h with
      | b :: l', h =>
        rw [List.take_succ_cons] at this ⊢
        rw [List.getLast?_cons_cons]
        exact this

/-- C6: while playing, `goBackTo(nodeId)` succeeds exactly when `nodeId`
occurs in `path` strictly before the tail; on success the new path is a
prefix of the old one ending at `nodeId` (so never longer), `guessCount`
is unchanged, and the hop count is the new path length minus one. -/
theorem c6_goBackTo (nodes : List Node) (gs : GameState) (nodeId : String)
    (hph : gs.phase = GamePhase.playing) :
    ((goBackTo nodes gs nodeId).2 = true ↔
      ∃ j, j < gs.path.length - 1 ∧ gs.path.get? j = some nodeId) ∧
    ((goBackTo nodes gs nodeId).2 = true →
      (goBackTo nodes gs nodeId).1.path.length ≤ gs.path.length ∧
      (goBackTo nodes gs nodeId).1.path.getLast? = some nodeId ∧
      (∃ k, (goBackTo nodes gs nodeId).1.path = gs.path.take k) ∧
      (goBackTo nodes gs nodeId).1.guessCount = gs.guessCount ∧
      (goBackTo nodes gs nodeId).1.hops
        = (goBackTo nodes gs nodeId).1.path.length - 1) := by
  have hp : ¬gs.phase ≠ GamePhase.playing := by simp [hph]
  match hidx : jsIndexOf gs.path nodeId with
  | none =>
    have heq : goBackTo nodes gs nodeId = (gs, false) := by
      rw [goBackTo.eq_def, if_neg hp, if_neg (by decide), hidx]
    rw [heq]
    refine ⟨⟨(fun h => nomatch h), ?_⟩, fun h => nomatch h⟩
    intro ⟨j, hj, hget⟩
    exact absurd hget (jsIndexOf_none gs.path nodeId hidx j)
  | some index =>
    by_cases hlast : index = gs.path.length - 1
    · have heq : goBackTo nodes gs nodeId = (gs, false) := by
        rw [goBackTo.eq_def, if_neg hp, if_neg (by decide), hidx]
        simp only [if_pos hlast]
      rw [heq]
      refine ⟨⟨(fun h => nomatch h), ?_⟩, fun h => nomatch h⟩
      intro ⟨j, hj, hget⟩
      have := jsIndexOf_min gs.path nodeId index hidx j hget
      omega
    · have heq : goBackTo nodes gs nodeId =
          ({ gs with
              currentArtist := nodes.find? (fun n => n.id == nodeId)
              path := gs.path.take (index + 1)
              pathArtists := gs.pathArtists.take (index + 1)
              hops := (gs.path.take (index + 1)).length - 1
              lastGuessResult := none }, true) := by
        rw [goBackTo.eq_def, if_neg hp, if_neg (by decide), hidx]
        simp only [if_neg hlast]
      have hget := jsIndexOf_get gs.path nodeId index hidx
      have hlt : index < gs.path.length := by
        rw [List.get?_eq_some] at hget
        exact hget.1
      have hjlt : index < gs.path.length - 1 := by omega
      rw [heq]
      refine ⟨⟨fun _ => ⟨index, hjlt, hget⟩, fun _ => rfl⟩, fun _ => ?_⟩
      refine ⟨?_, getLast?_take_succ gs.path index nodeId hget,
        ⟨index + 1, rfl⟩, rfl, rfl⟩
      rw [List.length_take]
      omega

/-- Witness for C6: backtracking to `"A"` from the fixture path `[A, B]`. -/
theorem c6_goBackTo_witness :
    ((goBackTo wNodes wState "A").2 = true ↔
      ∃ j, j < wState.path.length - 1 ∧ wState.path.get? j = some "A") ∧
    ((goBackTo wNodes wState "A").2 = true →
      (goBackTo wNodes wState "A").1.path.length ≤ wState.path.length ∧
      (goBackTo wNodes wState "A").1.path.getLast? = some "A" ∧
      (∃ k, (goBackTo wNodes wState "A").1.path = wState.path.take k) ∧
      (goBackTo wNodes wState "A").1.guessCount = wState.guessCount ∧
      (goBackTo wNodes wState "A").1.hops
        = (goBackTo wNodes wState "A").1.path.length - 1) :=
  c6_goBackTo wNodes wState "A" rfl

-- ## C2: path adjacency invariant

/-- The session invariant: consecutive path entries are adjacent (valid
moves), and the current artist sits at the tail of the path. -/
def PathInv (adj : String → List String) (gs : GameState) : Prop :=
  List.Chain' (fun a b => isValidMove adj a b = true) gs.path ∧
  ∀ c, gs.currentArtist = some c → gs.path.getLast? = some c.id

/-- Appending a valid move preserves the chain and moves the tail. -/
lemma pathInv_extend (adj : String → List String) (gs : GameState)
    (artist cur : Node) (h : PathInv adj gs)
    (hcur : gs.currentArtist = some cur)
    (hv : isValidMove adj cur.id artist.id = true) :
    List.Chain' (fun a b => isValidMove adj a b = true)
      (gs.path ++ [artist.id]) ∧
    (gs.path ++ [artist.id]).getLast? = some artist.id := by
  constructor
  · rw [List.chain'_append]
    refine ⟨h.1, List.chain'_singleton _, ?_⟩
    intro x hx y hy
    simp only [List.head?_cons, Option.mem_def, Option.some.injEq] at hy
    have hlast := h.2 cur hcur
    rw [hlast] at hx
    simp only [Option.mem_def, Option.some.injEq] at hx
    rw [hx, hy] at hv
    exact hv
  · exact List.getLast?_concat _

/-- Guessing via `submitGuess` preserves the path invariant (it only ever appends a node
that `isValidMove` accepts against the current tail). -/
lemma pathInv_submitGuess (nodes : List Node) (adj : String → List String)
    (gs : GameState) (input : Option String) (h : PathInv adj gs) :
    PathInv adj (submitGuess nodes adj gs input).1 := by
  rw [submitGuess.eq_def]
  by_cases hp : gs.phase ≠ GamePhase.playing
  · rw [if_pos hp]; exact h
  · rw [if_neg hp]
    match input with
    | none => exact h
    | some str =>
      by_cases hraw : jsTrim str = ""
      · simp only [if_pos hraw]; exact h
      · simp only [if_neg hraw]
        cases hres : resolveGuess nodes (jsTrim str) with
        | none => simp only [hres]; exact h
        | some artist =>
          simp only [hres]
          by_cases hmem : artist.id ∈ gs.path
          · simp only [if_pos hmem]; exact h
          · simp only [if_neg hmem]
            cases hcur : gs.currentArtist with
            | none =>
              cases htgt : gs.targetArtist <;> simp only [hcur, htgt] <;>
                exact h
            | some cur =>
              cases htgt : gs.targetArtist with
              | none => simp only [hcur, htgt]; exact h
              | some tgt =>
                simp only [hcur, htgt]
                by_cases hv : isValidMove adj cur.id artist.id = true
                · rw [if_pos hv]
                  obtain ⟨hch, hlast⟩ := pathInv_extend adj gs artist cur h
                    hcur hv
                  by_cases hcomp : artist.id = tgt.id
                  · rw [if_pos hcomp]
                    refine ⟨hch, ?_⟩
                    intro c hc
                    have : artist = c := by injection hc
                    rw [← this]
                    exact hlast
                  · rw [if_neg hcomp]
                    refine ⟨hch, ?_⟩
                    intro c hc
                    have : artist = c := by injection hc
                    rw [← this]
                    exact hlast
                · rw [if_neg hv]
                  refine ⟨h.1, ?_⟩
                  intro c hc
                  have : cur = c := by injection hc
                  rw [← this]
                  exact h.2 cur hcur

/-- Backtracking via `goBackTo` preserves the path invariant (truncation to a prefix keeps
the chain, and the new tail is the requested node). -/
lemma pathInv_goBackTo (nodes : List Node) (adj : String → List String)
    (gs : GameState) (artistId : String) (h : PathInv adj gs) :
    PathInv adj (goBackTo nodes gs artistId).1 := by
  rw [goBackTo.eq_def]
  by_cases hp : gs.phase ≠ GamePhase.playing
  · rw [if_pos hp]; exact h
  · rw [if_neg hp, if_neg (by decide)]
    cases hidx : jsIndexOf gs.path artistId with
    | none => simp only [hidx]; exact h
    | some index =>
      simp only [hidx]
      by_cases hlast : index = gs.path.length - 1
      · simp only [if_pos hlast]; exact h
      · simp only [if_neg hlast]
        constructor
        · exact h.1.take (index + 1)
        · intro c hc
          have hcid : c.id = artistId := by
            have := List.find?_some hc
            simpa using this
          rw [hcid]
          exact getLast?_take_succ gs.path index artistId
            (jsIndexOf_get gs.path artistId index hidx)

/-- Event sequences preserve the path invariant. -/
lemma pathInv_runEvents (nodes : List Node) (adj : String → List String) :
    ∀ (evs : List GameEvent) (gs : GameState), PathInv adj gs →
      PathInv adj (runEvents nodes adj gs evs) := by
  intro evs
  induction evs with
  | nil => intro gs h; exact h
  | cons e evs ih =>
    intro gs h
    rw [runEvents, List.foldl_cons]
    apply ih
    cases e with
    | guess i => exact pathInv_submitGuess nodes adj gs i h
    | back a => exact pathInv_goBackTo nodes adj gs a h

/-- C2: starting from `beginPlaying` on a session with a start and target
artist, after any sequence of `submitGuess`/`goBackTo` events every pair of
consecutive node ids in `path` is adjacent in the adjacency index
(`isValidMove`), even after backtracking. -/
theorem c2_path_adjacent (nodes : List Node) (adj : String → List String)
    (gs : GameState) (s t : Node) (evs : List GameEvent)
    (hs : gs.startArtist = some s) (ht : gs.targetArtist = some t) :
    List.Chain' (fun a b => isValidMove adj a b = true)
      (runEvents nodes adj (beginPlaying gs) evs).path := by
  have h0 : PathInv adj (beginPlaying gs) := by
    rw [beginPlaying.eq_def]
    simp only [hs, ht]
    constructor
    · exact List.chain'_singleton _
    · intro c hc
      have : s = c := by injection hc
      rw [← this]
      rfl
  exact (pathInv_runEvents nodes adj evs (beginPlaying gs) h0).1

/-- Fixture setup state (before `beginPlaying`). -/
def wSetup : GameState :=
  { phase := GamePhase.setup
    startArtist := some nA
    targetArtist := some nC
    currentArtist := none
    path := []
    pathArtists := []
    hops := 0
    revealedArtists := []
    failedGuesses := []
    guessCount := 0
    hintCount := 0
    hintSelectionActive := false
    lastGuessResult := none }

/-- Witness for C2: play `A → B` after `beginPlaying` in the fixture. -/
theorem c2_path_adjacent_witness :
    List.Chain' (fun a b => isValidMove wAdj a b = true)
      (runEvents wNodes wAdj (beginPlaying wSetup)
        [GameEvent.guess (some "B")]).path :=
  c2_path_adjacent wNodes wAdj wSetup nA nC [GameEvent.guess (some "B")]
    rfl rfl
